import Mathlib

/-!
Verification development for the Jetson Chat Gateway backend
(`src/backend/app`): a shallow embedding of the token-bucket rate
limiter (`rate_limiter.py`), the metrics collector (`metrics.py`),
the streaming chat translator shared by the SSE generator and the
WebSocket handler (`main.py`), and the request/connection pipelines
(`main.py`, `deps.py`).

Python floats are modelled as `ℚ` (all arithmetic in the verified
claims is exact), Python ints as `ℤ`, and the per-identity bucket
dictionary as an association list with decidable equality so that
concrete runs evaluate by `decide` / `rfl`.
-/

set_option autoImplicit false

namespace NORD

/-! ## Token-bucket rate limiter (`app/rate_limiter.py`) -/

/-- One per-identity bucket: `{"tokens": float, "timestamp": float}`. -/
structure Bucket where
  tokens : ℚ
  timestamp : ℚ
deriving DecidableEq

/-- In-memory state of `RateLimiter`: `rate`, `capacity = float(burst)`,
and the `_buckets` dictionary keyed by client identifier. -/
structure RateLimiter where
  rate : ℚ
  capacity : ℚ
  buckets : List (String × Bucket)
deriving DecidableEq

/-- Dictionary lookup `self._buckets.get(client_id)`. -/
def lookupBucket : List (String × Bucket) → String → Option Bucket
  | [], _ => none
  | (k, b) :: rest, clientId => if k = clientId then some b else lookupBucket rest clientId

/-- Dictionary write `self._buckets[client_id] = bucket`. -/
def setBucket : List (String × Bucket) → String → Bucket → List (String × Bucket)
  | [], clientId, b => [(clientId, b)]
  | (k, b0) :: rest, clientId, b =>
      if k = clientId then (clientId, b) :: rest else (k, b0) :: setBucket rest clientId b

/-- `RateLimiter.__init__`: rejects `rate <= 0` and `burst <= 0`
(`ValueError`), otherwise stores `rate` and `capacity = float(burst)`
with an empty bucket dictionary. -/
def RateLimiter.create (rate : ℚ) (burst : ℤ) : Option RateLimiter :=
  if rate ≤ 0 ∨ burst ≤ 0 then none else some ⟨rate, (burst : ℚ), []⟩

/-- `RateLimiter.allow(client_id)` at monotonic time `now`: fetch (or
lazily create at full capacity) the bucket, refill by
`min(capacity, tokens + elapsed * rate)` with
`elapsed = max(0.0, now - timestamp)`, then either reject without
consuming (refilled `< 1.0`) or consume `1.0` and admit. Returns the
result together with the updated limiter state. -/
def RateLimiter.allow (L : RateLimiter) (clientId : String) (now : ℚ) : Bool × RateLimiter :=
  let bucket := (lookupBucket L.buckets clientId).getD ⟨L.capacity, now⟩
  let elapsed := max 0 (now - bucket.timestamp)
  let refilled := min L.capacity (bucket.tokens + elapsed * L.rate)
  if refilled < 1 then
    (false, ⟨L.rate, L.capacity, setBucket L.buckets clientId ⟨refilled, now⟩⟩)
  else
    (true, ⟨L.rate, L.capacity, setBucket L.buckets clientId ⟨refilled - 1, now⟩⟩)

/-- Run a sequence of `allow` calls, each given as
`(client_id, monotonic time)`; returns the results in call order and
the final limiter state. -/
def RateLimiter.allowList (L : RateLimiter) : List (String × ℚ) → List Bool × RateLimiter
  | [] => ([], L)
  | (clientId, t) :: rest =>
      let step := L.allow clientId t
      let tail := step.2.allowList rest
      (step.1 :: tail.1, tail.2)

/-! ## Metrics collector (`app/metrics.py`) -/

/-- `MetricsCollector` state: the bounded latency deque
(`deque(maxlen=window_size)`, most recent last) and the cumulative
counters. -/
structure MetricsCollector where
  windowSize : ℕ
  latencies : List ℚ
  requestsTotal : ℤ
  promptTokens : ℤ
  completionTokens : ℤ
deriving DecidableEq

/-- `MetricsCollector.__init__(window_size=512)`. -/
def MetricsCollector.create (windowSize : ℕ) : MetricsCollector :=
  ⟨windowSize, [], 0, 0, 0⟩

/-- `MetricsCollector.record(latency_ms, prompt_tokens, completion_tokens)`:
increments `requests_total`, adds the token counts clamped at zero, and
appends `max(0.0, latency_ms)` to the deque, evicting the oldest sample
when the window is full. -/
def MetricsCollector.record (m : MetricsCollector) (latencyMs : ℚ)
    (promptTokens completionTokens : ℤ) : MetricsCollector :=
  let appended := m.latencies ++ [max 0 latencyMs]
  ⟨m.windowSize,
    appended.drop (appended.length - m.windowSize),
    m.requestsTotal + 1,
    m.promptTokens + max 0 promptTokens,
    m.completionTokens + max 0 completionTokens⟩

/-- `_percentile(values, percentile)`: `0.0` on an empty list, otherwise
sort and linearly interpolate between order statistics with
`k = (n - 1) * p`, `f = floor(k)`, `c = ceil(k)`. When `f == c` the
source indexes with `int(k)`, which equals `f` there. Out-of-range
indices (possible only for `p` outside `[0, 1]`, which `snapshot` never
passes) default to `0`. -/
def listPercentile (values : List ℚ) (p : ℚ) : ℚ :=
  if values.isEmpty then 0
  else
    let ordered := values.insertionSort (· ≤ ·)
    let k : ℚ := ((ordered.length - 1 : ℕ) : ℚ) * p
    let f : ℤ := ⌊k⌋
    let c : ℤ := ⌈k⌉
    if f = c then ordered.getD f.toNat 0
    else ordered.getD f.toNat 0 * ((c : ℚ) - k) + ordered.getD c.toNat 0 * (k - (f : ℚ))

/-- The dictionary returned by `MetricsCollector.snapshot()`. -/
structure MetricsSnapshot where
  requests_total : ℤ
  tokens_prompt_total : ℤ
  tokens_completion_total : ℤ
  latency_ms_p50 : ℚ
  latency_ms_p95 : ℚ
deriving DecidableEq

/-- `MetricsCollector.snapshot()`: copies the window out and computes
the p50/p95 percentiles of the current window. -/
def MetricsCollector.snapshot (m : MetricsCollector) : MetricsSnapshot :=
  ⟨m.requestsTotal, m.promptTokens, m.completionTokens,
    listPercentile m.latencies 0.5, listPercentile m.latencies 0.95⟩

/-! ## Streaming chat translator (`app/main.py`)

`_sse_chat_generator` and `_handle_websocket_chat` run the same
per-chunk loop over `ollama_client.stream_chat`; they differ only in
framing (SSE `data:` blocks vs WebSocket JSON frames) and in how a
chunk-level error is surfaced (the SSE generator raises
`HTTPException(502, detail)`, the WebSocket handler sends an error
frame) — both are the `Error` terminal of the event protocol, so the
loop is embedded once, with exceptions reified as `Error` events. -/

/-- Usage counters of a `done` chunk / of the `UsageStats` model. -/
structure UsageStats where
  prompt_tokens : ℤ
  completion_tokens : ℤ
  total_tokens : ℤ
deriving DecidableEq

/-- One backend stream chunk, decoded: the optional fields inspected by
`_token_from_chunk`, `_usage_from_chunk` and the chunk loop.
`messageContent` is the nested `message.content` field. -/
structure Chunk where
  error : Option String
  response : Option String
  messageContent : Option String
  done : Bool
  prompt_eval_count : Option ℤ
  eval_count : Option ℤ
deriving DecidableEq

/-- Python truthiness of an optional string field: present and
non-empty. -/
def optStrTruthy : Option String → Bool
  | some s => decide (s ≠ "")
  | none => false

/-- `chunk.get("error")` is truthy. -/
def Chunk.hasError (c : Chunk) : Bool := optStrTruthy c.error

/-- `str(chunk["error"])`. -/
def Chunk.errorMessage (c : Chunk) : String := c.error.getD ""

/-- `_token_from_chunk`: prefer a truthy `response` field, else a truthy
nested `message.content`, else the empty string (no token). -/
def tokenFromChunk (c : Chunk) : String :=
  if optStrTruthy c.response then c.response.getD ""
  else if optStrTruthy c.messageContent then c.messageContent.getD ""
  else ""

/-- `_usage_from_chunk`: `int(chunk.get("prompt_eval_count") or 0)` and
`int(chunk.get("eval_count") or 0)`. -/
def usageFromChunk (c : Chunk) : ℤ × ℤ :=
  (c.prompt_eval_count.getD 0, c.eval_count.getD 0)

/-- The uniform event protocol emitted to the client (SSE `data:` blocks
/ WebSocket frames, with the SSE 502 raise reified as `error`).
Latency is wall-clock time and is not part of the chunk data, so it is
not carried here; the claims under verification constrain content and
usage counters. -/
inductive ChatEvent where
  | token (text : String)
  | done (content : String) (usage : UsageStats)
  | error (message : String)
deriving DecidableEq

/-- `Token` events are the non-terminal events. -/
def ChatEvent.isToken : ChatEvent → Bool
  | .token _ => true
  | _ => false

/-- `Done` and `Error` are the terminal events. -/
def ChatEvent.isTerminal : ChatEvent → Bool
  | .token _ => false
  | _ => true

/-- The `Token` events one chunk contributes: one event when the
extracted token is non-empty (`if token:`), none otherwise. -/
def tokenEvents (c : Chunk) : List ChatEvent :=
  if tokenFromChunk c = "" then [] else [ChatEvent.token (tokenFromChunk c)]

/-- One metrics sample recorded via `metrics.record(latency_ms,
prompt_tokens, completion_tokens)` during a streaming turn; the token
counts are the chunk-derived values (latency is wall-clock and not
chunk data). -/
structure Sample where
  promptTokens : ℤ
  completionTokens : ℤ
deriving DecidableEq

/-- How the backend chunk iterator ends after its listed chunks:
`closed` is normal generator exhaustion, `failed` is an
`OllamaServiceError` raised mid-iteration (connection loss /
disconnect), carrying `str(exc)`. -/
inductive StreamEnd where
  | closed
  | failed (msg : String)
deriving DecidableEq

/-- The shared chunk loop of `_sse_chat_generator` /
`_handle_websocket_chat`, with `collected` the text accumulated so far:
per chunk, first a truthy `error` field ends the turn with an `Error`
terminal (SSE: `raise HTTPException(502, str(chunk["error"]))`; WS:
error frame + `return`) and no metrics sample; otherwise a non-empty
extracted token is appended to the accumulator and emitted; a truthy
`done` field then ends the turn with one metrics sample and a `Done`
event carrying the full accumulated text and chunk usage
(`total = prompt + completion`). If the iterator is exhausted with no
`done` seen (`if not done_sent`), one zero-usage sample is recorded and
`Done` is emitted with the accumulated text and `UsageStats()`; if the
iterator raises `OllamaServiceError`, the turn ends with an `Error`
terminal and no sample. Returns the emitted events and the recorded
samples. -/
def translate (collected : String) : List Chunk → StreamEnd → List ChatEvent × List Sample
  | [], .closed => ([ChatEvent.done collected ⟨0, 0, 0⟩], [⟨0, 0⟩])
  | [], .failed msg => ([ChatEvent.error msg], [])
  | c :: rest, e =>
      if c.hasError then ([ChatEvent.error c.errorMessage], [])
      else
        let collected' := collected ++ tokenFromChunk c
        if c.done then
          let u := usageFromChunk c
          (tokenEvents c ++ [ChatEvent.done collected' ⟨u.1, u.2, u.1 + u.2⟩], [⟨u.1, u.2⟩])
        else
          let tail := translate collected' rest e
          (tokenEvents c ++ tail.1, tail.2)

/-- Replay a turn's recorded samples into a `MetricsCollector` (each
`metrics.record` call, at whatever wall-clock latency `lat` the turn
measured). -/
def applySamples (m : MetricsCollector) (lat : ℚ) (samples : List Sample) : MetricsCollector :=
  samples.foldl (fun acc s => acc.record lat s.promptTokens s.completionTokens) m

/-! ## Request and connection pipelines (`app/main.py`, `app/deps.py`)

`POST /api/chat` declares `dependencies=[Depends(verify_api_key),
Depends(enforce_rate_limit)]` on the route and takes the
`ChatRequest` body as an endpoint parameter. FastAPI's
`solve_dependencies` awaits the route's sub-dependencies first and
validates the endpoint's body parameters (raising
`RequestValidationError`, HTTP 422) only afterwards, so the execution
order embedded here is: API-key check, then `RateLimiter.allow` (HTTP
429 on rejection), then the `ChatRequest.validate_messages` non-empty
check, and only then the backend stream. `websocket /ws/chat` runs
`verify_api_key_ws` and `enforce_rate_limit_ws` once per connection
(rejection closes with 1008 before `accept`), then serves an unbounded
sequence of turns, each of which runs the chunk loop. -/

/-- `ChatMessage.role`: `Literal["system", "user", "assistant"]`. -/
inductive Role where
  | system
  | user
  | assistant
deriving DecidableEq

/-- `ChatMessage` of `app/schemas.py`. -/
structure ChatMessage where
  role : Role
  content : String
deriving DecidableEq

/-- Outcome of one streaming `POST /api/chat` request. -/
inductive HttpOutcome where
  | unauthorized
  | tooManyRequests
  | validationFailed
  | streaming (events : List ChatEvent)
deriving DecidableEq

/-- The `ChatEvent`s a given HTTP outcome delivers to the client
(non-streaming outcomes deliver none). -/
def HttpOutcome.events : HttpOutcome → List ChatEvent
  | .streaming evs => evs
  | _ => []

/-- One streaming `POST /api/chat` request, drive end to end:
route dependencies (API key, then rate-limiter admission for the
derived client identity at time `now`), then body validation
(`messages` non-empty), then the backend stream translated by the
chunk loop. Returns the outcome, the updated limiter state, and
whether a backend stream was started. -/
def processStreamingChat (L : RateLimiter) (apiKeyOk : Bool) (clientId : String) (now : ℚ)
    (messages : List ChatMessage) (chunks : List Chunk) (e : StreamEnd) :
    HttpOutcome × RateLimiter × Bool :=
  if !apiKeyOk then (.unauthorized, L, false)
  else
    let admission := L.allow clientId now
    if !admission.1 then (.tooManyRequests, admission.2, false)
    else if messages.isEmpty then (.validationFailed, admission.2, false)
    else (.streaming (translate "" chunks e).1, admission.2, true)

/-- Outcome of one `/ws/chat` connection: rejected with a
policy-violation close (1008) before `accept`, or accepted with one
event frame sequence per chat turn. -/
inductive WsOutcome where
  | policyViolationClose
  | served (frames : List (List ChatEvent))
deriving DecidableEq

/-- All `ChatEvent`s a `/ws/chat` outcome sends. -/
def WsOutcome.events : WsOutcome → List ChatEvent
  | .policyViolationClose => []
  | .served frames => frames.flatten

/-- One `/ws/chat` connection: `verify_api_key_ws` and
`enforce_rate_limit_ws` run once at connection time (a rejection raises
`WebSocketException` and no turn runs); an admitted connection serves
every queued turn, each one backend stream driven through the chunk
loop. Returns the outcome, the updated limiter state, and the number
of backend streams started. -/
def wsChatConnection (L : RateLimiter) (apiKeyOk : Bool) (clientId : String) (now : ℚ)
    (turns : List (List Chunk × StreamEnd)) : WsOutcome × RateLimiter × ℕ :=
  if !apiKeyOk then (.policyViolationClose, L, 0)
  else
    let admission := L.allow clientId now
    if !admission.1 then (.policyViolationClose, admission.2, 0)
    else (.served (turns.map fun t => (translate "" t.1 t.2).1), admission.2, turns.length)

/-! ## Lemmas: bucket dictionary and `allow` -/

theorem lookupBucket_setBucket_self (bs : List (String × Bucket)) (clientId : String)
    (b : Bucket) : lookupBucket (setBucket bs clientId b) clientId = some b := by
  induction bs with
  | nil => simp [setBucket, lookupBucket]
  | cons hd tl ih =>
      obtain ⟨k, b0⟩ := hd
      by_cases h : k = clientId
      · simp [setBucket, lookupBucket, h]
      · simp [setBucket, lookupBucket, h, ih]

theorem lookupBucket_setBucket_ne {k clientId : String} (bs : List (String × Bucket))
    (b : Bucket) (h : k ≠ clientId) :
    lookupBucket (setBucket bs clientId b) k = lookupBucket bs k := by
  induction bs with
  | nil => simp [setBucket, lookupBucket, Ne.symm h]
  | cons hd tl ih =>
      obtain ⟨k0, b0⟩ := hd
      by_cases h0 : k0 = clientId
      · subst h0
        simp [setBucket, lookupBucket, Ne.symm h]
      · by_cases h1 : k0 = k
        · simp [setBucket, lookupBucket, h0, h1, h]
        · simp [setBucket, lookupBucket, h0, h1, ih]

/-- Unfolding equation for `RateLimiter.allow`, in the exact shape of
the spec's refill/consume description. -/
theorem allow_eq (L : RateLimiter) (clientId : String) (now : ℚ) :
    L.allow clientId now =
      (let b := (lookupBucket L.buckets clientId).getD ⟨L.capacity, now⟩
       let refilled := min L.capacity (b.tokens + max 0 (now - b.timestamp) * L.rate)
       if refilled < 1 then
         (false, ⟨L.rate, L.capacity, setBucket L.buckets clientId ⟨refilled, now⟩⟩)
       else
         (true, ⟨L.rate, L.capacity, setBucket L.buckets clientId ⟨refilled - 1, now⟩⟩)) := rfl

theorem allow_snd_rate (L : RateLimiter) (clientId : String) (now : ℚ) :
    (L.allow clientId now).2.rate = L.rate := by
  rw [allow_eq]
  dsimp only
  split <;> rfl

theorem allow_snd_capacity (L : RateLimiter) (clientId : String) (now : ℚ) :
    (L.allow clientId now).2.capacity = L.capacity := by
  rw [allow_eq]
  dsimp only
  split <;> rfl

/-- `allow` writes only the caller's own bucket: every other key keeps
its binding. -/
theorem allow_lookup_other {k clientId : String} (L : RateLimiter) (now : ℚ)
    (h : k ≠ clientId) :
    lookupBucket (L.allow clientId now).2.buckets k = lookupBucket L.buckets k := by
  rw [allow_eq]
  dsimp only
  split <;> exact lookupBucket_setBucket_ne _ _ h

/-- The admission result and the caller's resulting bucket depend only
on the limiter's rate, capacity and the caller's own bucket. -/
theorem allow_congr (L L' : RateLimiter) (clientId : String) (now : ℚ)
    (hr : L.rate = L'.rate) (hc : L.capacity = L'.capacity)
    (hb : lookupBucket L.buckets clientId = lookupBucket L'.buckets clientId) :
    (L.allow clientId now).1 = (L'.allow clientId now).1
    ∧ lookupBucket (L.allow clientId now).2.buckets clientId
        = lookupBucket (L'.allow clientId now).2.buckets clientId := by
  rw [allow_eq, allow_eq]
  dsimp only
  rw [hr, hc, hb]
  split <;> simp [lookupBucket_setBucket_self]

/-! ## Noninterference machinery for bucket isolation -/

/-- Two limiter states with the same configuration that agree on every
bucket except possibly identity `a`'s. -/
def AgreeExcept (a : String) (L L' : RateLimiter) : Prop :=
  L.rate = L'.rate ∧ L.capacity = L'.capacity
    ∧ ∀ k, k ≠ a → lookupBucket L.buckets k = lookupBucket L'.buckets k

theorem agreeExcept_refl (a : String) (L : RateLimiter) : AgreeExcept a L L :=
  ⟨rfl, rfl, fun _ _ => rfl⟩

/-- A call by identity `a` on the left run only perturbs `a`'s bucket. -/
theorem agreeExcept_allow_left (a : String) {L L' : RateLimiter} (t : ℚ)
    (h : AgreeExcept a L L') : AgreeExcept a (L.allow a t).2 L' := by
  obtain ⟨hr, hc, hb⟩ := h
  refine ⟨?_, ?_, ?_⟩
  · rw [allow_snd_rate]
    exact hr
  · rw [allow_snd_capacity]
    exact hc
  · intro k hk
    rw [allow_lookup_other _ _ hk]
    exact hb k hk

/-- A call by any identity other than `a`, run on both sides, returns
the same admission result and preserves the agreement. -/
theorem agreeExcept_allow_both {a : String} {L L' : RateLimiter} {clientId : String}
    (t : ℚ) (hca : clientId ≠ a) (h : AgreeExcept a L L') :
    (L.allow clientId t).1 = (L'.allow clientId t).1
    ∧ AgreeExcept a (L.allow clientId t).2 (L'.allow clientId t).2 := by
  obtain ⟨hr, hc, hb⟩ := h
  have hcong := allow_congr L L' clientId t hr hc (hb clientId hca)
  refine ⟨hcong.1, ?_, ?_, ?_⟩
  · rw [allow_snd_rate, allow_snd_rate]
    exact hr
  · rw [allow_snd_capacity, allow_snd_capacity]
    exact hc
  · intro k hk
    by_cases hkc : k = clientId
    · subst hkc
      exact hcong.2
    · rw [allow_lookup_other _ _ hkc, allow_lookup_other _ _ hkc]
      exact hb k hk

/-- Running a call sequence on the left and the same sequence with all
of `a`'s calls removed on the right preserves the agreement. -/
theorem allowList_filter_agree (a : String) (calls : List (String × ℚ))
    {L L' : RateLimiter} (h : AgreeExcept a L L') :
    AgreeExcept a (L.allowList calls).2
      (L'.allowList (calls.filter (fun p => decide (p.1 ≠ a)))).2 := by
  induction calls generalizing L L' with
  | nil => simpa [RateLimiter.allowList] using h
  | cons hd tl ih =>
      obtain ⟨cid, t⟩ := hd
      by_cases hca : cid = a
      · subst hca
        simp only [RateLimiter.allowList, List.filter_cons]
        rw [if_neg (by simp)]
        exact ih (agreeExcept_allow_left _ t h)
      · have step := agreeExcept_allow_both t hca h
        simp only [RateLimiter.allowList, List.filter_cons]
        rw [if_pos (by simp [hca])]
        simp only [RateLimiter.allowList]
        exact ih step.2

/-! ## Range invariant machinery -/

/-- Every stored bucket holds between `0` and `cap` tokens. -/
def BucketsInRange (cap : ℚ) (bs : List (String × Bucket)) : Prop :=
  ∀ p ∈ bs, 0 ≤ p.2.tokens ∧ p.2.tokens ≤ cap

theorem setBucket_mem {bs : List (String × Bucket)} {clientId : String} {b : Bucket}
    {p : String × Bucket} (hp : p ∈ setBucket bs clientId b) :
    p = (clientId, b) ∨ p ∈ bs := by
  induction bs with
  | nil => simpa [setBucket] using hp
  | cons hd tl ih =>
      obtain ⟨k, b0⟩ := hd
      by_cases h : k = clientId
      · subst h
        simp [setBucket, List.mem_cons] at hp
        rcases hp with h1 | h1
        · exact Or.inl (by simp [h1])
        · exact Or.inr (List.mem_cons_of_mem _ h1)
      · simp only [setBucket, if_neg h, List.mem_cons] at hp
        rcases hp with h1 | h1
        · exact Or.inr (by simp [h1])
        · rcases ih h1 with h2 | h2
          · exact Or.inl h2
          · exact Or.inr (List.mem_cons_of_mem _ h2)

theorem lookupBucket_mem {bs : List (String × Bucket)} {clientId : String} {b : Bucket}
    (h : lookupBucket bs clientId = some b) : ∃ k, (k, b) ∈ bs := by
  induction bs with
  | nil => simp [lookupBucket] at h
  | cons hd tl ih =>
      obtain ⟨k0, b0⟩ := hd
      by_cases hk : k0 = clientId
      · simp only [lookupBucket, if_pos hk, Option.some.injEq] at h
        exact ⟨k0, by simp [h]⟩
      · simp only [lookupBucket, if_neg hk] at h
        obtain ⟨k, hm⟩ := ih h
        exact ⟨k, List.mem_cons_of_mem _ hm⟩

/-- One `allow` call keeps every stored token count in `[0, capacity]`. -/
theorem allow_preserves_range {L : RateLimiter} (clientId : String) (now : ℚ)
    (hrate : 0 ≤ L.rate) (hcap : 0 ≤ L.capacity)
    (hinv : BucketsInRange L.capacity L.buckets) :
    BucketsInRange L.capacity (L.allow clientId now).2.buckets := by
  have htok : 0 ≤ ((lookupBucket L.buckets clientId).getD ⟨L.capacity, now⟩).tokens := by
    rcases hlook : lookupBucket L.buckets clientId with _ | b
    · simpa [hlook] using hcap
    · obtain ⟨k, hm⟩ := lookupBucket_mem hlook
      simpa [hlook] using (hinv _ hm).1
  rw [allow_eq]
  dsimp only
  set b0 := (lookupBucket L.buckets clientId).getD ⟨L.capacity, now⟩ with hb0
  set refilled := min L.capacity (b0.tokens + max 0 (now - b0.timestamp) * L.rate) with hrf
  have h0 : 0 ≤ refilled :=
    le_min hcap (add_nonneg htok (mul_nonneg (le_max_left _ _) hrate))
  have h2 : refilled ≤ L.capacity := min_le_left _ _
  split
  · rename_i hlt
    intro p hp
    rcases setBucket_mem hp with h1 | h1
    · subst h1
      exact ⟨h0, h2⟩
    · exact hinv _ h1
  · rename_i hlt
    intro p hp
    rcases setBucket_mem hp with h1 | h1
    · subst h1
      constructor
      · have := not_lt.mp hlt
        simpa using by linarith
      · simp only
        linarith
    · exact hinv _ h1

/-- A whole call sequence keeps every stored token count in
`[0, capacity]`. -/
theorem allowList_preserves_range {L : RateLimiter} (calls : List (String × ℚ))
    (hrate : 0 ≤ L.rate) (hcap : 0 ≤ L.capacity)
    (hinv : BucketsInRange L.capacity L.buckets) :
    BucketsInRange L.capacity (L.allowList calls).2.buckets := by
  induction calls generalizing L with
  | nil => simpa [RateLimiter.allowList] using hinv
  | cons hd tl ih =>
      obtain ⟨cid, t⟩ := hd
      simp only [RateLimiter.allowList]
      have hr := allow_snd_rate L cid t
      have hc := allow_snd_capacity L cid t
      have step := allow_preserves_range cid t hrate hcap hinv
      have tail := ih (L := (L.allow cid t).2) (by rw [hr]; exact hrate)
        (by rw [hc]; exact hcap) (by rw [hc]; exact step)
      rw [hc] at tail
      exact tail

/-! ## Lemmas: translator -/

theorem tokenEvents_isToken (c : Chunk) : ∀ x ∈ tokenEvents c, x.isToken = true := by
  intro x hx
  unfold tokenEvents at hx
  split at hx
  · simp at hx
  · simp at hx
    simp [hx, ChatEvent.isToken]

/-- Consuming a clean prefix and then an error chunk yields exactly the
prefix's token events followed by one `Error` terminal, no metrics
samples, and nothing from the rest of the stream. -/
theorem translate_error_chunk_eq (collected : String) (pre : List Chunk) (c : Chunk)
    (post : List Chunk) (e : StreamEnd)
    (hpre : ∀ x ∈ pre, x.hasError = false ∧ x.done = false)
    (herr : c.hasError = true) :
    translate collected (pre ++ c :: post) e
      = ((pre.map tokenEvents).flatten ++ [ChatEvent.error c.errorMessage], []) := by
  induction pre generalizing collected with
  | nil => simp [translate, herr]
  | cons x rest ih =>
      obtain ⟨he, hd⟩ := hpre x (by simp)
      simp [translate, he, hd, ih _ (fun y hy => hpre y (List.mem_cons_of_mem _ hy))]

/-! ## Claim theorems -/

/-- **C1**: for every admitted streaming request or WebSocket turn,
driven over any finite backend chunk sequence (empty, ending without a
done marker, failing, or containing an error chunk) the translator loop
emits exactly one terminal event (`Done` or `Error`), preceded by zero
or more `Token` events and nothing else. -/
theorem translate_exactly_one_terminal_event (collected : String) (chunks : List Chunk)
    (e : StreamEnd) :
    ∃ pre last, (translate collected chunks e).1 = pre ++ [last]
      ∧ (∀ x ∈ pre, x.isToken = true) ∧ last.isTerminal = true := by
  induction chunks generalizing collected with
  | nil =>
      cases e with
      | closed => exact ⟨[], ChatEvent.done collected ⟨0, 0, 0⟩, rfl, by simp, rfl⟩
      | failed msg => exact ⟨[], ChatEvent.error msg, rfl, by simp, rfl⟩
  | cons c rest ih =>
      by_cases he : c.hasError
      · exact ⟨[], ChatEvent.error c.errorMessage, by simp [translate, he], by simp, rfl⟩
      · by_cases hd : c.done
        · refine ⟨tokenEvents c,
            ChatEvent.done (collected ++ tokenFromChunk c)
              ⟨(usageFromChunk c).1, (usageFromChunk c).2,
                (usageFromChunk c).1 + (usageFromChunk c).2⟩,
            ?_, tokenEvents_isToken c, rfl⟩
          simp [translate, he, hd]
        · obtain ⟨pre, last, h1, h2, h3⟩ := ih (collected ++ tokenFromChunk c)
          refine ⟨tokenEvents c ++ pre, last, ?_, ?_, h3⟩
          · simp [translate, he, hd, h1]
          · intro x hx
            rcases List.mem_append.mp hx with hx | hx
            · exact tokenEvents_isToken c x hx
            · exact h2 x hx

/-- **C4**: a backend stream that ends without any chunk marked done
still yields exactly one `Done` whose content is all accumulated text
(possibly empty) with all-zero usage, and exactly one metrics sample
with zero token counts. -/
theorem translate_silent_truncation (collected : String) (chunks : List Chunk)
    (hclean : ∀ c ∈ chunks, c.hasError = false ∧ c.done = false) :
    translate collected chunks .closed
      = ((chunks.map tokenEvents).flatten
          ++ [ChatEvent.done
                ((chunks.map tokenFromChunk).foldl (fun a b => a ++ b) collected)
                ⟨0, 0, 0⟩],
         [⟨0, 0⟩]) := by
  induction chunks generalizing collected with
  | nil => simp [translate]
  | cons c rest ih =>
      obtain ⟨he, hd⟩ := hclean c (by simp)
      simp [translate, he, hd, ih _ (fun y hy => hclean y (List.mem_cons_of_mem _ hy))]

/-- Witness for C4: a two-chunk stream (tokens `"he"`, `"llo"`) with no
done marker yields one `Done "hello"` with zero usage and one zero
sample. -/
theorem translate_silent_truncation_witness :
    (∀ c ∈ [(⟨none, some "he", none, false, none, none⟩ : Chunk),
            ⟨none, none, some "llo", false, none, none⟩],
        c.hasError = false ∧ c.done = false)
    ∧ translate "" [⟨none, some "he", none, false, none, none⟩,
        ⟨none, none, some "llo", false, none, none⟩] .closed
      = ([ChatEvent.token "he", ChatEvent.token "llo",
          ChatEvent.done "hello" ⟨0, 0, 0⟩], [⟨0, 0⟩]) := by
  refine ⟨by decide, ?_⟩
  have h := translate_silent_truncation ""
    [⟨none, some "he", none, false, none, none⟩,
     ⟨none, none, some "llo", false, none, none⟩] (by decide)
  simpa [tokenEvents, tokenFromChunk, optStrTruthy] using h

/-- **C9**: an error chunk mid-stream ends the turn at once — the
output is the clean prefix's token events followed by one `Error`
carrying the upstream message, nothing after the error chunk is
consumed (the output is independent of the remaining chunks and of how
the stream would have ended), and no metrics sample is recorded, so
replaying the turn's samples leaves any metrics state unchanged. -/
theorem translate_error_chunk_stops_and_no_sample (collected : String) (pre : List Chunk)
    (c : Chunk) (post : List Chunk) (e : StreamEnd)
    (hpre : ∀ x ∈ pre, x.hasError = false ∧ x.done = false)
    (herr : c.hasError = true) :
    (translate collected (pre ++ c :: post) e).1
      = (pre.map tokenEvents).flatten ++ [ChatEvent.error c.errorMessage]
    ∧ (translate collected (pre ++ c :: post) e).2 = []
    ∧ translate collected (pre ++ c :: post) e = translate collected (pre ++ [c]) .closed
    ∧ ∀ (m : MetricsCollector) (lat : ℚ),
        applySamples m lat (translate collected (pre ++ c :: post) e).2 = m := by
  have h1 := translate_error_chunk_eq collected pre c post e hpre herr
  have h2 := translate_error_chunk_eq collected pre c [] .closed hpre herr
  refine ⟨by rw [h1], by rw [h1], by rw [h1, h2], ?_⟩
  intro m lat
  rw [h1]
  rfl

/-- Witness for C9: a stream with one clean token chunk, then an error
chunk, then an unread done chunk, emits `Token "hi"` then
`Error "boom"`, records nothing, and leaves a concrete metrics state
unchanged. -/
theorem translate_error_chunk_witness :
    (translate "" [⟨none, some "hi", none, false, none, none⟩,
        ⟨some "boom", none, none, false, none, none⟩,
        ⟨none, none, none, true, some 5, some 2⟩] .closed).1
      = [ChatEvent.token "hi", ChatEvent.error "boom"]
    ∧ applySamples (MetricsCollector.create 512) 7
        (translate "" [⟨none, some "hi", none, false, none, none⟩,
          ⟨some "boom", none, none, false, none, none⟩,
          ⟨none, none, none, true, some 5, some 2⟩] .closed).2
      = MetricsCollector.create 512 := by
  have h := translate_error_chunk_stops_and_no_sample ""
    [⟨none, some "hi", none, false, none, none⟩]
    ⟨some "boom", none, none, false, none, none⟩
    [⟨none, none, none, true, some 5, some 2⟩] .closed (by decide) (by decide)
  refine ⟨?_, h.2.2.2 (MetricsCollector.create 512) 7⟩
  have h1 := h.1
  simpa [tokenEvents, tokenFromChunk, optStrTruthy, Chunk.errorMessage] using h1

/-- **C2**: with `rate=3`, `burst=6` and one identity `X` starting from
no bucket, 6 immediate calls all admit, the 7th immediate call rejects,
and after an elapse of `t ≥ 1/3` s one further call admits (and, while
the total elapse stays below `2/3` s, the call after that rejects
again, so exactly one call is admitted); in general each call refills
to `min(capacity, tokens + elapsed * rate)`, rejects without consuming
when the refilled value is below `1.0` (persisting value and
timestamp), and otherwise consumes exactly `1.0` and persists. -/
theorem rate_limiter_admission_fairness (t : ℚ) (ht : 1/3 ≤ t) :
    RateLimiter.create 3 6 = some ⟨3, 6, []⟩
    ∧ (RateLimiter.allowList ⟨3, 6, []⟩ (List.replicate 7 ("X", 0))).1
        = [true, true, true, true, true, true, false]
    ∧ ((RateLimiter.allowList ⟨3, 6, []⟩ (List.replicate 7 ("X", 0))).2.allow "X" t).1 = true
    ∧ (t < 2/3 →
        (((RateLimiter.allowList ⟨3, 6, []⟩ (List.replicate 7 ("X", 0))).2.allow "X" t).2.allow
          "X" t).1 = false)
    ∧ ∀ (L : RateLimiter) (clientId : String) (now : ℚ),
        L.allow clientId now =
          (let b := (lookupBucket L.buckets clientId).getD ⟨L.capacity, now⟩
           let refilled := min L.capacity (b.tokens + max 0 (now - b.timestamp) * L.rate)
           if refilled < 1 then
             (false, ⟨L.rate, L.capacity, setBucket L.buckets clientId ⟨refilled, now⟩⟩)
           else
             (true, ⟨L.rate, L.capacity, setBucket L.buckets clientId ⟨refilled - 1, now⟩⟩)) := by
  have hL7 : (RateLimiter.allowList ⟨3, 6, []⟩ (List.replicate 7 ("X", 0))).2
      = ⟨3, 6, [("X", ⟨0, 0⟩)]⟩ := by
    norm_num [RateLimiter.allowList, RateLimiter.allow, lookupBucket, setBucket, List.replicate]
  have htpos : (0 : ℚ) ≤ t := by linarith
  have hmax : max (0 : ℚ) (t - 0) = t := by
    rw [sub_zero]
    exact max_eq_right htpos
  have hsimp1 : (0 : ℚ) + max 0 (t - 0) * 3 = t * 3 := by rw [hmax, zero_add]
  have hlook : lookupBucket [("X", (⟨0, 0⟩ : Bucket))] "X" = some ⟨0, 0⟩ := by
    simp [lookupBucket]
  have hnot : ¬ (min (6 : ℚ) (t * 3) < 1) :=
    not_lt.mpr (le_min (by norm_num) (by linarith))
  have hstep : (⟨3, 6, [("X", ⟨0, 0⟩)]⟩ : RateLimiter).allow "X" t
      = (true, ⟨3, 6, [("X", ⟨min 6 (t * 3) - 1, t⟩)]⟩) := by
    rw [allow_eq]
    simp only [hlook, Option.getD_some]
    rw [hsimp1, if_neg hnot]
    simp [setBucket]
  refine ⟨by norm_num [RateLimiter.create], ?_, ?_, ?_, fun L c n => allow_eq L c n⟩
  · norm_num [RateLimiter.allowList, RateLimiter.allow, lookupBucket, setBucket, List.replicate]
  · rw [hL7, hstep]
  · intro ht2
    rw [hL7, hstep]
    have hlook2 : lookupBucket [("X", (⟨min 6 (t * 3) - 1, t⟩ : Bucket))] "X"
        = some ⟨min 6 (t * 3) - 1, t⟩ := by simp [lookupBucket]
    have hsimp2 : (min (6 : ℚ) (t * 3) - 1) + max 0 (t - t) * 3 = min 6 (t * 3) - 1 := by
      simp
    have hlt : min (6 : ℚ) (min 6 (t * 3) - 1) < 1 := by
      have h1 := min_le_right (6 : ℚ) (min 6 (t * 3) - 1)
      have h2 := min_le_right (6 : ℚ) (t * 3)
      linarith
    rw [allow_eq]
    simp only [hlook2, Option.getD_some]
    rw [hsimp2, if_pos hlt]

/-- Witness for C2 at `t = 1/3`: one further call right at the refill
boundary is admitted. -/
theorem rate_limiter_admission_fairness_witness :
    (1 : ℚ)/3 ≤ 1/3
    ∧ (RateLimiter.allowList ⟨3, 6, []⟩ (List.replicate 7 ("X", 0))).1
        = [true, true, true, true, true, true, false]
    ∧ ((RateLimiter.allowList ⟨3, 6, []⟩ (List.replicate 7 ("X", 0))).2.allow "X" (1/3)).1
        = true :=
  ⟨le_refl _, (rate_limiter_admission_fairness (1/3) (le_refl _)).2.1,
    (rate_limiter_admission_fairness (1/3) (le_refl _)).2.2.1⟩

/-- **C7**: admissions are per-identity noninterfering — deleting every
`allow` call made by a distinct identity `a` from any preceding call
interleaving never changes the admission result identity `b` receives
next, so exhausting `a`'s bucket cannot affect `b`. -/
theorem rate_limiter_bucket_isolation (a b : String) (hab : a ≠ b) (L : RateLimiter)
    (calls : List (String × ℚ)) (now : ℚ) :
    ((L.allowList calls).2.allow b now).1
      = ((L.allowList (calls.filter (fun p => decide (p.1 ≠ a)))).2.allow b now).1 := by
  obtain ⟨hr, hc, hb⟩ := allowList_filter_agree a calls (agreeExcept_refl a L)
  exact (allow_congr _ _ b now hr hc (hb b (Ne.symm hab))).1

/-- Witness for C7: `B`'s admission after two of `A`'s calls (and one
of its own) equals its admission with `A`'s calls removed. -/
theorem rate_limiter_bucket_isolation_witness :
    "A" ≠ "B"
    ∧ (((⟨3, 6, []⟩ : RateLimiter).allowList
          [("A", 0), ("A", 0), ("B", 0)]).2.allow "B" 0).1
      = (((⟨3, 6, []⟩ : RateLimiter).allowList
          ([("A", 0), ("A", 0), ("B", 0)].filter (fun p => decide (p.1 ≠ "A")))).2.allow
          "B" 0).1 :=
  ⟨by decide, rate_limiter_bucket_isolation "A" "B" (by decide) ⟨3, 6, []⟩
    [("A", 0), ("A", 0), ("B", 0)] 0⟩

/-- **C8**: under the constructor preconditions `rate > 0` and
`burst > 0`, after any finite `allow` call sequence with non-decreasing
timestamps every stored bucket's token value lies in
`[0, capacity]`. -/
theorem rate_limiter_tokens_in_range (rate : ℚ) (burst : ℤ) (L0 : RateLimiter)
    (hcreate : RateLimiter.create rate burst = some L0) (calls : List (String × ℚ))
    (hmono : List.Chain' (· ≤ ·) (calls.map Prod.snd)) :
    ∀ p ∈ (L0.allowList calls).2.buckets, 0 ≤ p.2.tokens ∧ p.2.tokens ≤ L0.capacity := by
  unfold RateLimiter.create at hcreate
  split at hcreate
  · exact absurd hcreate (by simp)
  · rename_i hpos
    push_neg at hpos
    injection hcreate with h
    subst h
    refine allowList_preserves_range calls hpos.1.le ?_ (fun p hp => by simp at hp)
    show (0 : ℚ) ≤ ((burst : ℤ) : ℚ)
    exact_mod_cast hpos.2.le

/-- Witness for C8: after two calls by `X` at times `0` and `1` the
stored bucket is `⟨5, 1⟩`, within `[0, 6]`. -/
theorem rate_limiter_tokens_in_range_witness :
    RateLimiter.create 3 6 = some (⟨3, 6, []⟩ : RateLimiter)
    ∧ List.Chain' (· ≤ ·) (([(("X" : String), (0 : ℚ)), ("X", 1)]).map Prod.snd)
    ∧ 0 ≤ (⟨5, 1⟩ : Bucket).tokens
    ∧ (⟨5, 1⟩ : Bucket).tokens ≤ (⟨3, ((6 : ℤ) : ℚ), []⟩ : RateLimiter).capacity := by
  have happ := rate_limiter_tokens_in_range 3 6 ⟨3, ((6 : ℤ) : ℚ), []⟩
    (by norm_num [RateLimiter.create]) [("X", 0), ("X", 1)]
    (by norm_num [List.chain'_cons]) ("X", ⟨5, 1⟩)
    (by norm_num [RateLimiter.allowList, RateLimiter.allow, lookupBucket, setBucket])
  exact ⟨by norm_num [RateLimiter.create], by norm_num [List.chain'_cons], happ.1, happ.2⟩

/-- **C10**: with `rate > 0` and integer `burst ≥ 1`, the first `allow`
call of an identity with no existing bucket is always admitted: the
lazily created bucket starts at `capacity = burst ≥ 1.0`. -/
theorem rate_limiter_first_call_admitted (rate : ℚ) (burst : ℤ)
    (bs : List (String × Bucket)) (clientId : String) (now : ℚ)
    (hrate : 0 < rate) (hburst : 0 < burst)
    (hfresh : lookupBucket bs clientId = none) :
    ((⟨rate, (burst : ℚ), bs⟩ : RateLimiter).allow clientId now).1 = true := by
  have h1 : (1 : ℚ) ≤ (burst : ℚ) := by exact_mod_cast hburst
  rw [allow_eq]
  dsimp only
  rw [hfresh]
  dsimp only [Option.getD]
  rw [if_neg]
  rw [sub_self]
  refine not_lt.mpr (le_min h1 ?_)
  simpa using h1

/-- Witness for C10: a limiter with `rate=3`, `burst=6` and no bucket
for `"new"` admits `"new"`'s first call. -/
theorem rate_limiter_first_call_admitted_witness :
    (0 : ℚ) < 3 ∧ (0 : ℤ) < 6 ∧ lookupBucket [] "new" = none
    ∧ ((⟨3, ((6 : ℤ) : ℚ), []⟩ : RateLimiter).allow "new" 0).1 = true :=
  ⟨by norm_num, by norm_num, rfl,
    rate_limiter_first_call_admitted 3 6 [] "new" 0 (by norm_num) (by norm_num) rfl⟩

/-- **C3**: `snapshot` interpolates percentiles linearly between order
statistics of the sorted window (`k = (n-1)p`, `f = ⌊k⌋`, `c = ⌈k⌉`;
`values[k]` when `f = c`, else `values[f](c-k) + values[c](k-f)`); for
the window `[10, 20, 30, 40]` built by four `record` calls, p50 is `25`
and p95 is `38.5`, and on an empty window every percentile is `0`. -/
theorem metrics_percentile_interpolation :
    (((((MetricsCollector.create 512).record 10 0 0).record 20 0 0).record 30 0
        0).record 40 0 0).snapshot.latency_ms_p50 = 25
    ∧ (((((MetricsCollector.create 512).record 10 0 0).record 20 0 0).record 30 0
        0).record 40 0 0).snapshot.latency_ms_p95 = 38.5
    ∧ (∀ p : ℚ, listPercentile [] p = 0)
    ∧ ∀ (v : List ℚ) (p : ℚ), v ≠ [] →
        listPercentile v p =
          (let ordered := v.insertionSort (· ≤ ·)
           let k : ℚ := ((ordered.length - 1 : ℕ) : ℚ) * p
           if (⌊k⌋ : ℤ) = ⌈k⌉ then ordered.getD (⌊k⌋).toNat 0
           else ordered.getD (⌊k⌋).toNat 0 * ((⌈k⌉ : ℚ) - k)
             + ordered.getD (⌈k⌉).toNat 0 * (k - ((⌊k⌋ : ℚ)))) := by
  have hwin : ((((MetricsCollector.create 512).record 10 0 0).record 20 0 0).record 30 0
      0).record 40 0 0 = ⟨512, [10, 20, 30, 40], 4, 0, 0⟩ := by
    norm_num [MetricsCollector.create, MetricsCollector.record]
  refine ⟨?_, ?_, fun p => by simp [listPercentile], fun v p hv => ?_⟩
  · rw [hwin]
    show listPercentile [10, 20, 30, 40] 0.5 = 25
    have h1 : (⌈(3/2 : ℚ)⌉ : ℤ) = 2 := by
      rw [Int.ceil_eq_iff] <;> norm_num
    have h2 : (2 : ℤ).toNat = 2 := rfl
    norm_num [listPercentile, List.insertionSort, List.orderedInsert, h1, h2, List.getD]
  · rw [hwin]
    show listPercentile [10, 20, 30, 40] 0.95 = 38.5
    have h1 : (⌈(57/20 : ℚ)⌉ : ℤ) = 3 := by
      rw [Int.ceil_eq_iff] <;> norm_num
    have h2 : (2 : ℤ).toNat = 2 := rfl
    have h3 : (3 : ℤ).toNat = 3 := rfl
    norm_num [listPercentile, List.insertionSort, List.orderedInsert, h1, h2, h3, List.getD]
  · cases v with
    | nil => exact absurd rfl hv
    | cons a l => rfl

/-- Witness for C3's interpolation formula at the non-empty window
`[10, 20, 30, 40]` and `p = 0.5`. -/
theorem metrics_percentile_interpolation_witness :
    ([(10 : ℚ), 20, 30, 40] ≠ [])
    ∧ listPercentile [10, 20, 30, 40] 0.5 =
        (let ordered := [(10 : ℚ), 20, 30, 40].insertionSort (· ≤ ·)
         let k : ℚ := ((ordered.length - 1 : ℕ) : ℚ) * 0.5
         if (⌊k⌋ : ℤ) = ⌈k⌉ then ordered.getD (⌊k⌋).toNat 0
         else ordered.getD (⌊k⌋).toNat 0 * ((⌈k⌉ : ℚ) - k)
           + ordered.getD (⌈k⌉).toNat 0 * (k - ((⌊k⌋ : ℚ)))) :=
  ⟨by simp, metrics_percentile_interpolation.2.2.2 [10, 20, 30, 40] 0.5 (by simp)⟩

/-- Counterexample to C5 as stated: FastAPI resolves the route's
dependencies (`verify_api_key`, `enforce_rate_limit`) before validating
the request body, so a `POST /api/chat` with `messages: []` does invoke
`RateLimiter.allow` first — here a fresh bucket for `"client"` is
created and one token is consumed (6 → 5) before the validation
failure — and with an exhausted bucket the same empty-messages request
gets 429, not a validation error. -/
theorem chat_empty_messages_admission_first_cex :
    processStreamingChat ⟨3, 6, []⟩ true "client" 0 [] [] .closed
      = (.validationFailed, ⟨3, 6, [("client", ⟨5, 0⟩)]⟩, false)
    ∧ (processStreamingChat ⟨3, 6, [("client", ⟨0, 0⟩)]⟩ true "client" 0 [] []
        .closed).1 = .tooManyRequests := by
  constructor <;>
    norm_num [processStreamingChat, RateLimiter.allow, lookupBucket, setBucket]

/-- **C5 (amended)**: a `POST /api/chat` whose `messages` list is empty
is rejected as a request-validation failure before any backend call —
no backend stream is ever started and no streaming outcome is produced
— but the admission dependency runs before body validation, so when the
key check passes and the limiter admits, the outcome is the validation
failure with the limiter state already updated by that `allow` call. -/
theorem chat_empty_messages_rejected_before_backend (L : RateLimiter) (apiKeyOk : Bool)
    (clientId : String) (now : ℚ) (chunks : List Chunk) (e : StreamEnd)
    (messages : List ChatMessage) (hempty : messages = []) :
    (processStreamingChat L apiKeyOk clientId now messages chunks e).2.2 = false
    ∧ (∀ evs, (processStreamingChat L apiKeyOk clientId now messages chunks e).1
        ≠ .streaming evs)
    ∧ (apiKeyOk = true → (L.allow clientId now).1 = true →
        processStreamingChat L apiKeyOk clientId now messages chunks e
          = (.validationFailed, (L.allow clientId now).2, false)) := by
  subst hempty
  cases apiKeyOk with
  | false => simp [processStreamingChat]
  | true =>
      cases hall : (L.allow clientId now).1 with
      | false => simp [processStreamingChat, hall]
      | true => simp [processStreamingChat, hall]

/-- Witness for C5 (amended): an admitted empty-messages request on a
fresh limiter ends in the validation failure with a token consumed and
no backend stream. -/
theorem chat_empty_messages_rejected_before_backend_witness :
    (processStreamingChat ⟨3, 6, []⟩ true "client" 0 [] [] .closed).2.2 = false
    ∧ processStreamingChat ⟨3, 6, []⟩ true "client" 0 [] [] .closed
        = (.validationFailed, ((⟨3, 6, []⟩ : RateLimiter).allow "client" 0).2, false) := by
  have h := chat_empty_messages_rejected_before_backend ⟨3, 6, []⟩ true "client" 0 []
    .closed [] rfl
  exact ⟨h.1, h.2.2 rfl (by norm_num [RateLimiter.allow, lookupBucket])⟩

/-- **C6**: a backend chunk stream is started only if the limiter
admitted the request's / connection's derived identity beforehand: a
rejected admission short-circuits to HTTP 429 (request) or a WebSocket
policy-violation close (connection), with no `ChatEvent` emitted and no
stream started. -/
theorem admission_precedes_backend_stream (L : RateLimiter) (apiKeyOk : Bool)
    (clientId : String) (now : ℚ) (messages : List ChatMessage) (chunks : List Chunk)
    (e : StreamEnd) (turns : List (List Chunk × StreamEnd)) :
    ((processStreamingChat L apiKeyOk clientId now messages chunks e).2.2 = true →
      (L.allow clientId now).1 = true)
    ∧ (apiKeyOk = true → (L.allow clientId now).1 = false →
        processStreamingChat L apiKeyOk clientId now messages chunks e
          = (.tooManyRequests, (L.allow clientId now).2, false)
        ∧ (processStreamingChat L apiKeyOk clientId now messages chunks e).1.events = [])
    ∧ ((wsChatConnection L apiKeyOk clientId now turns).2.2 ≠ 0 →
        (L.allow clientId now).1 = true)
    ∧ (apiKeyOk = true → (L.allow clientId now).1 = false →
        wsChatConnection L apiKeyOk clientId now turns
          = (.policyViolationClose, (L.allow clientId now).2, 0)
        ∧ (wsChatConnection L apiKeyOk clientId now turns).1.events = []) := by
  cases apiKeyOk with
  | false => simp [processStreamingChat, wsChatConnection]
  | true =>
      cases hall : (L.allow clientId now).1 with
      | false =>
          simp [processStreamingChat, wsChatConnection, hall, HttpOutcome.events,
            WsOutcome.events]
      | true =>
          constructor
          · intro
            rfl
          refine ⟨by simp, ?_, by simp⟩
          intro h
          simp [wsChatConnection, hall] at h ⊢

/-- Witness for C6: with an exhausted bucket for `"c"`, a WebSocket
connection is closed with a policy violation serving zero streams, and
an HTTP chat request gets 429 with no backend stream. -/
theorem admission_precedes_backend_stream_witness :
    wsChatConnection ⟨3, 6, [("c", ⟨0, 0⟩)]⟩ true "c" 0 [([], .closed)]
      = (.policyViolationClose,
          ((⟨3, 6, [("c", ⟨0, 0⟩)]⟩ : RateLimiter).allow "c" 0).2, 0)
    ∧ processStreamingChat ⟨3, 6, [("c", ⟨0, 0⟩)]⟩ true "c" 0 [⟨Role.user, "hi"⟩] []
        .closed
      = (.tooManyRequests, ((⟨3, 6, [("c", ⟨0, 0⟩)]⟩ : RateLimiter).allow "c" 0).2,
          false) := by
  have hall : ((⟨3, 6, [("c", ⟨0, 0⟩)]⟩ : RateLimiter).allow "c" 0).1 = false := by
    norm_num [RateLimiter.allow, lookupBucket]
  have h := admission_precedes_backend_stream ⟨3, 6, [("c", ⟨0, 0⟩)]⟩ true "c" 0
    [⟨Role.user, "hi"⟩] [] .closed [([], .closed)]
  exact ⟨(h.2.2.2 rfl hall).1, (h.2.1 rfl hall).1⟩

end NORD
